import Mathlib

/-!
Verification of the `jute` notebook backend (`src-tauri/src/backend/`).

This file gives a shallow embedding of:
* the notebook document model of `backend/notebook.rs` (serde-derived JSON
  decoding/encoding of `NotebookRoot` and all its components, and
  `MultilineString::normalize`), and
* the remote-session client of `backend/remote.rs` (`JupyterClient::new`,
  `JupyterClient::get_kernel_by_id`, `RemoteKernel::start` and its
  transport-URL derivation),
together with theorems settling the specification's claims about them.

Modelling conventions:
* JSON values (`serde_json::Value`) are modelled by the inductive `Json`
  below.  JSON numbers are modelled as integers: every numeric field of the
  document schema is `u8`/`u32`, and numbers inside unrecognized
  ("flattened") bags are treated as opaque values that are never inspected,
  so non-integer numbers play no role in any claim.
* `serde_json::Map<String, Value>` and `BTreeMap<String, _>` are modelled as
  association lists `List (String × Json)`; the map's iteration order is
  abstracted as the stored list order.  Decoding and encoding never reorder
  entries, which is what the round-trip claims are about.
* Decoders return `Option`: `none` models a serde decode error
  (`FormatError`).  Each `decodeX` function mirrors the serde `Deserialize`
  derive for the Rust type `X` (required fields, `Option` fields that accept
  a missing key or `null`, `#[serde(flatten)]` bags collecting every
  unrecognized key, internally-tagged enums, untagged enums); each `encodeX`
  mirrors the `Serialize` derive (declaration-order fields, `None` emitted
  as `null`, tag field first for tagged enums).
-/

/-- Model of `serde_json::Value` (see modelling conventions above). -/
inductive Json where
  | null
  | bool (b : Bool)
  | num (n : Int)
  | str (s : String)
  | arr (elems : List Json)
  | obj (fields : List (String × Json))
deriving Repr, BEq

/-- Field lookup in a JSON object, as serde's map access: first entry wins. -/
def jget : List (String × Json) → String → Option Json
  | [], _ => none
  | (k', v) :: rest, k => if k = k' then some v else jget rest k

/-- The `#[serde(flatten)]` bag: every field whose key is not in the
recognized set `recog`, kept verbatim in encounter order. -/
def othersOf (kvs : List (String × Json)) (recog : List String) :
    List (String × Json) :=
  kvs.filter (fun kv => ¬ kv.1 ∈ recog)

/-- Decode a JSON string (serde `String`). -/
def decStr : Json → Option String
  | .str s => some s
  | _ => none

/-- Decode a `u8` field: serde accepts integers in `[0, 255]`. -/
def decU8 : Json → Option Nat
  | .num n => if 0 ≤ n ∧ n < 256 then some n.toNat else none
  | _ => none

/-- Decode a `u32` field: serde accepts integers in `[0, 2^32)`. -/
def decU32 : Json → Option Nat
  | .num n => if 0 ≤ n ∧ n < 4294967296 then some n.toNat else none
  | _ => none

/-- Decode an `Option<T>` field from the result of a key lookup: a missing
key or an explicit `null` gives `None`, anything else must decode as `T`
(serde's default behaviour for `Option` fields). -/
def decOpt (f : Json → Option α) : Option Json → Option (Option α)
  | none => some none
  | some Json.null => some none
  | some v => (f v).map some

/-- Encode an `Option<T>` field: `None` is serialized as `null` (there is no
`skip_serializing_if` attribute anywhere in `notebook.rs`). -/
def encOpt (f : α → Json) : Option α → Json
  | none => Json.null
  | some v => f v

/-- Decode a `Vec<T>` elementwise, failing fast (serde sequence decoding). -/
def decList (f : Json → Option α) : List Json → Option (List α)
  | [] => some []
  | j :: rest => do
      let a ← f j
      let as ← decList f rest
      pure (a :: as)


/-- serde expects a JSON object here; anything else is a decode error. -/
def jfields : Json → Option (List (String × Json))
  | .obj kvs => some kvs
  | _ => none

/-- serde expects a JSON array here; anything else is a decode error. -/
def jitems : Json → Option (List Json)
  | .arr xs => some xs
  | _ => none

section JsonLemmas

theorem jget_cons (k k' : String) (v : Json) (rest : List (String × Json)) :
    jget ((k', v) :: rest) k = if k = k' then some v else jget rest k := rfl

theorem othersOf_append (l₁ l₂ : List (String × Json)) (recog : List String) :
    othersOf (l₁ ++ l₂) recog = othersOf l₁ recog ++ othersOf l₂ recog := by
  simp [othersOf, List.filter_append]

/-- Filtering the flatten bag a second time changes nothing. -/
theorem othersOf_idem (kvs : List (String × Json)) (recog : List String) :
    othersOf (othersOf kvs recog) recog = othersOf kvs recog := by
  simp [othersOf, List.filter_filter]

theorem decList_map_of_rt (f : Json → Option α) (g : α → Json)
    (xs : List Json) (ys : List α)
    (hrt : ∀ j y, f j = some y → f (g y) = some y)
    (h : decList f xs = some ys) :
    decList f (ys.map g) = some ys := by
  induction xs generalizing ys with
  | nil =>
    simp [decList] at h
    subst h
    simp [decList]
  | cons j rest ih =>
    simp only [decList, Option.pure_def, Option.bind_eq_bind, Option.bind_eq_some,
      Option.some.injEq] at h
    obtain ⟨a, ha, as, has, hcons⟩ := h
    subst hcons
    simp only [List.map_cons, decList, Option.pure_def, Option.bind_eq_bind,
      Option.bind_eq_some, Option.some.injEq]
    exact ⟨a, hrt j a ha, as, ih as has, rfl⟩

/-- Round-trip for `Option` fields: if the inner decoder round-trips on the
given value and the inner encoder never emits `null`, then re-decoding the
encoded optional field gives the value back. -/
theorem decOpt_rt (f : Json → Option α) (g : α → Json)
    (o : Option Json) (oy : Option α)
    (hne : ∀ y, g y ≠ Json.null)
    (hrt : ∀ j y, f j = some y → f (g y) = some y)
    (h : decOpt f o = some oy) :
    decOpt f (some (encOpt g oy)) = some oy := by
  cases oy with
  | none => simp [encOpt, decOpt]
  | some y =>
    have hf : ∃ j, f j = some y := by
      cases o with
      | none => simp [decOpt] at h
      | some v =>
        cases v <;> simp [decOpt] at h <;> exact ⟨_, h⟩
    obtain ⟨j, hj⟩ := hf
    have hgy := hrt j y hj
    have hgen : decOpt f (some (g y)) = some (some y) := by
      rcases hg : g y with _ | b | n | s | es | fs
      · exact absurd hg (hne y)
      all_goals (rw [hg] at hgy; simp [decOpt, hgy])
    simpa [encOpt] using hgen

end JsonLemmas

/-! ### `MultilineString` and `normalize` (`notebook.rs` lines 211-253)

The Rust splitting loop in `MultilineString::normalize` works on a byte
slice; since it only ever splits after `'\n'` (a one-byte, non-continuation
byte), splitting at character granularity is equivalent, and we model the
text as `List Char` in the core functions, wrapped into `String` at the
interface. -/

/-- Index of the first `'\n'`, modelling `remaining.find('\n')`. -/
def findNl : List Char → Option Nat
  | [] => none
  | c :: t => if c = '\n' then some 0 else (findNl t).map (· + 1)

/-- `remaining.find('\n').map_or(remaining.len(), |i| i + 1)`. -/
def nextBreak (l : List Char) : Nat :=
  match findNl l with
  | some i => i + 1
  | none => l.length

theorem nextBreak_pos (l : List Char) (h : l ≠ []) : 0 < nextBreak l := by
  cases hf : findNl l with
  | some i => simp [nextBreak, hf]
  | none =>
    simp only [nextBreak, hf]
    exact List.length_pos.mpr h

/-- Faithful model of the splitting loop in `MultilineString::normalize`:
while the remaining text is non-empty, push the prefix up to and including
the first newline (or the whole remainder) and continue after it. -/
def splitNlLoop (l : List Char) : List (List Char) :=
  if h : l = [] then []
  else l.take (nextBreak l) :: splitNlLoop (l.drop (nextBreak l))
termination_by l.length
decreasing_by
  simp only [List.length_drop]
  have := nextBreak_pos l h
  have : 0 < l.length := List.length_pos.mpr h
  omega

/-- Structural-recursion twin of `splitNlLoop`, used for inductive proofs. -/
def splitNl : List Char → List (List Char)
  | [] => []
  | c :: t =>
    if c = '\n' then [c] :: splitNl t
    else
      match splitNl t with
      | [] => [[c]]
      | l :: ls => (c :: l) :: ls

theorem splitNl_unfold (l : List Char) (h : l ≠ []) :
    splitNl l = l.take (nextBreak l) :: splitNl (l.drop (nextBreak l)) := by
  induction l with
  | nil => exact absurd rfl h
  | cons c t ih =>
    by_cases hc : c = '\n'
    · subst hc
      simp [splitNl, nextBreak, findNl]
    · have hfind : findNl (c :: t) = (findNl t).map (· + 1) := by
        simp [findNl, hc]
      cases hf : findNl t with
      | some i =>
        have ht : t ≠ [] := by
          rintro rfl
          simp [findNl] at hf
        have hnb : nextBreak (c :: t) = i + 2 := by
          simp [nextBreak, hfind, hf]
        have hnbt : nextBreak t = i + 1 := by simp [nextBreak, hf]
        have hts : splitNl t = List.take (i + 1) t :: splitNl (List.drop (i + 1) t) := by
          have h₀ := ih ht
          rwa [hnbt] at h₀
        simp only [splitNl, hc, if_false, hts, hnb, List.take_succ_cons,
          List.drop_succ_cons]
      | none =>
        have hnb : nextBreak (c :: t) = (c :: t).length := by
          simp [nextBreak, hfind, hf]
        have htail : splitNl t = if t = [] then [] else [t] := by
          by_cases ht : t = []
          · simp [ht, splitNl]
          · have hnbt : nextBreak t = t.length := by simp [nextBreak, hf]
            rw [ih ht, hnbt]
            simp [ht, splitNl]
        rw [hnb, List.take_length, List.drop_length]
        have hnil : splitNl ([] : List Char) = [] := rfl
        rw [hnil]
        by_cases ht : t = []
        · subst ht
          simp [splitNl, hc]
        · simp [splitNl, hc, htail, ht]

theorem splitNlLoop_eq_splitNl (l : List Char) : splitNlLoop l = splitNl l := by
  rw [splitNlLoop]
  by_cases h : l = []
  · simp [h, splitNl]
  · simp only [h, dite_false]
    rw [splitNlLoop_eq_splitNl (l.drop (nextBreak l))]
    exact (splitNl_unfold l h).symm
termination_by l.length
decreasing_by
  simp only [List.length_drop]
  have := nextBreak_pos l h
  have : 0 < l.length := List.length_pos.mpr h
  omega

theorem splitNl_eq_nil_iff (l : List Char) : splitNl l = [] ↔ l = [] := by
  cases l with
  | nil => simp [splitNl]
  | cons c t =>
    simp only [splitNl]
    constructor
    · intro h
      by_cases hc : c = '\n'
      · simp [hc] at h
      · simp only [hc, if_false] at h
        cases hs : splitNl t <;> rw [hs] at h <;> simp at h
    · intro h
      exact absurd h (List.cons_ne_nil c t)

/-- Concatenating the produced fragments recovers the input text. -/
theorem splitNl_flatten (l : List Char) : (splitNl l).flatten = l := by
  induction l with
  | nil => simp [splitNl]
  | cons c t ih =>
    by_cases hc : c = '\n'
    · subst hc
      simp [splitNl, ih]
    · simp only [splitNl, hc, if_false]
      cases hs : splitNl t with
      | nil =>
        have : t = [] := (splitNl_eq_nil_iff t).mp hs
        simp [this]
      | cons frag frags =>
        rw [hs] at ih
        simp only [List.flatten_cons] at ih ⊢
        simp [ih]

/-- Every produced fragment is non-empty. -/
theorem splitNl_ne_nil (l : List Char) (frag : List Char)
    (h : frag ∈ splitNl l) : frag ≠ [] := by
  induction l generalizing frag with
  | nil => simp [splitNl] at h
  | cons c t ih =>
    by_cases hc : c = '\n'
    · subst hc
      simp only [splitNl, if_true, List.mem_cons] at h
      rcases h with h | h
      · simp [h]
      · exact ih frag h
    · simp only [splitNl, hc, if_false] at h
      cases hs : splitNl t with
      | nil =>
        rw [hs] at h
        simp at h
        simp [h]
      | cons l₀ ls =>
        rw [hs] at h
        simp only [List.mem_cons] at h
        rcases h with h | h
        · simp [h]
        · exact ih frag (hs ▸ List.mem_cons_of_mem l₀ h)

/-- A newline can occur only as the final character of a fragment. -/
theorem splitNl_no_inner_nl (l : List Char) (frag : List Char)
    (h : frag ∈ splitNl l) : '\n' ∉ frag.dropLast := by
  induction l generalizing frag with
  | nil => simp [splitNl] at h
  | cons c t ih =>
    by_cases hc : c = '\n'
    · subst hc
      simp only [splitNl, if_true, List.mem_cons] at h
      rcases h with h | h
      · simp [h]
      · exact ih frag h
    · simp only [splitNl, hc, if_false] at h
      cases hs : splitNl t with
      | nil =>
        rw [hs] at h
        simp at h
        simp [h]
      | cons l₀ ls =>
        rw [hs] at h
        simp only [List.mem_cons] at h
        rcases h with h | h
        · subst h
          have hl₀ : '\n' ∉ l₀.dropLast :=
            ih l₀ (hs ▸ List.mem_cons_self l₀ ls)
          cases l₀ with
          | nil => simp [hc]
          | cons d ds =>
            simp only [List.dropLast_cons₂, List.mem_cons] at hl₀ ⊢
            push_neg
            refine ⟨fun heq => hc heq.symm, ?_⟩
            intro hmem
            exact hl₀ hmem
        · exact ih frag (hs ▸ List.mem_cons_of_mem l₀ h)

/-- Every fragment but the last ends with a newline. -/
theorem splitNl_dropLast_ends_nl (l : List Char) (frag : List Char)
    (h : frag ∈ (splitNl l).dropLast) : frag.getLast? = some '\n' := by
  induction l generalizing frag with
  | nil => simp [splitNl] at h
  | cons c t ih =>
    by_cases hc : c = '\n'
    · subst hc
      simp only [splitNl, if_true] at h
      cases hs : splitNl t with
      | nil => rw [hs] at h; simp at h
      | cons l₀ ls =>
        rw [hs] at h
        rw [List.dropLast_cons₂, List.mem_cons] at h
        rcases h with h | h
        · simp [h]
        · exact ih frag (hs ▸ h)
    · simp only [splitNl, hc, if_false] at h
      cases hs : splitNl t with
      | nil => rw [hs] at h; simp at h
      | cons l₀ ls =>
        rw [hs] at h
        cases ls with
        | nil => simp at h
        | cons l₁ ls' =>
          rw [List.dropLast_cons₂, List.mem_cons] at h
          rcases h with h | h
          · subst h
            have hl₀ : l₀.getLast? = some '\n' := by
              apply ih
              rw [hs, List.dropLast_cons₂]
              exact List.mem_cons_self l₀ _
            cases l₀ with
            | nil => simp at hl₀
            | cons d ds =>
              rw [List.getLast?_cons_cons]
              exact hl₀
          · apply ih
            rw [hs, List.dropLast_cons₂]
            exact List.mem_cons_of_mem l₀ h

/-- `MultilineString` (`notebook.rs` lines 211-220): either a single string
or an array of fragments (serde `untagged`). -/
inductive MultilineString where
  | Single (s : String)
  | Multi (v : List String)
deriving Repr, BEq, DecidableEq

/-- Two strings with the same character data are equal. -/
theorem string_data_eq (s t : String) (h : s.data = t.data) : s = t := by
  cases s
  cases t
  exact congrArg String.mk h

/-- `(String.join v).data` is the flattened character data. -/
theorem string_join_data (v : List String) :
    (String.join v).data = (v.map String.data).flatten := by
  have go : ∀ (l : List String) (acc : String),
      (l.foldl (· ++ ·) acc).data = acc.data ++ (l.map String.data).flatten := by
    intro l
    induction l with
    | nil => intro acc; simp
    | cons s rest ih =>
      intro acc
      simp [ih, String.data_append]
  simpa using go v ""

/-- `impl From<MultilineString> for String` (`notebook.rs` lines 222-230):
a one-element array yields its element, otherwise fragments are joined. -/
def mlsToString : MultilineString → String
  | .Single s => s
  | .Multi [s] => s
  | .Multi v => String.join v

theorem mlsToString_multi (v : List String) :
    mlsToString (.Multi v) = String.join v := by
  match v with
  | [] => rfl
  | [s] =>
    apply string_data_eq
    simp [mlsToString, string_join_data]
  | s :: t :: rest => rfl

/-- String-level wrapper for the splitting loop. -/
def splitLines (s : String) : List String :=
  (splitNlLoop s.data).map (fun cs => { data := cs })

/-- `MultilineString::normalize` (`notebook.rs` lines 238-252): join all
fragments into one logical string, then re-split after each newline. -/
def MultilineString.normalize (m : MultilineString) : MultilineString :=
  let value : String :=
    match m with
    | .Single s => s
    | .Multi v => String.join v
  .Multi (splitLines value)

theorem string_join_splitLines (s : String) :
    String.join (splitLines s) = s := by
  apply string_data_eq
  rw [string_join_data]
  simp only [splitLines, splitNlLoop_eq_splitNl, List.map_map]
  have : (String.data ∘ fun cs => ({ data := cs } : String)) = id := by
    funext cs
    rfl
  rw [this, List.map_id]
  exact splitNl_flatten s.data

/-! ### Notebook document model (`notebook.rs` lines 14-339) -/

/-- `MimeBundle`: `BTreeMap<String, Value>` keyed by MIME type. -/
abbrev MimeBundle := List (String × Json)

/-- `CellAttachments`: `BTreeMap<String, MimeBundle>` keyed by filename. -/
abbrev CellAttachments := List (String × MimeBundle)

/-- `OutputMetadata`: `BTreeMap<String, Value>`. -/
abbrev OutputMetadata := List (String × Json)

/-- `KernelSpec` (`notebook.rs` lines 60-73). -/
structure KernelSpec where
  name : String
  display_name : String
  other : List (String × Json)
deriving Repr, BEq

/-- `CodeMirrorMode` (`notebook.rs` lines 103-111), serde `untagged`:
either a plain string or a nested object. -/
inductive CodeMirrorMode where
  | Str (s : String)
  | Object (m : List (String × Json))
deriving Repr, BEq

/-- `LanguageInfo` (`notebook.rs` lines 75-101). -/
structure LanguageInfo where
  name : String
  codemirror_mode : Option CodeMirrorMode
  file_extension : Option String
  mimetype : Option String
  pygments_lexer : Option String
  other : List (String × Json)
deriving Repr, BEq

/-- `Author` (`notebook.rs` lines 113-124). -/
structure Author where
  name : Option String
  other : List (String × Json)
deriving Repr, BEq

/-- `NotebookMetadata` (`notebook.rs` lines 31-58). -/
structure NotebookMetadata where
  kernelspec : Option KernelSpec
  language_info : Option LanguageInfo
  orig_nbformat : Option Nat
  title : Option String
  authors : Option (List Author)
  other : List (String × Json)
deriving Repr, BEq

/-- `CellMetadata` (`notebook.rs` lines 196-203): purely a flatten bag. -/
structure CellMetadata where
  other : List (String × Json)
deriving Repr, BEq

/-- `RawCell` (`notebook.rs` lines 140-156). -/
structure RawCell where
  id : Option String
  metadata : CellMetadata
  source : MultilineString
  attachments : Option CellAttachments
deriving Repr, BEq

/-- `MarkdownCell` (`notebook.rs` lines 158-174). -/
structure MarkdownCell where
  id : Option String
  metadata : CellMetadata
  source : MultilineString
  attachments : Option CellAttachments
deriving Repr, BEq

/-- `OutputExecuteResult` (`notebook.rs` lines 272-288). -/
structure OutputExecuteResult where
  execution_count : Option Nat
  data : MimeBundle
  metadata : OutputMetadata
  other : List (String × Json)
deriving Repr, BEq

/-- `OutputDisplayData` (`notebook.rs` lines 290-303). -/
structure OutputDisplayData where
  data : MimeBundle
  metadata : OutputMetadata
  other : List (String × Json)
deriving Repr, BEq

/-- `OutputStream` (`notebook.rs` lines 305-318). -/
structure OutputStream where
  name : String
  text : MultilineString
  other : List (String × Json)
deriving Repr, BEq

/-- `OutputError` (`notebook.rs` lines 320-336). -/
structure OutputError where
  ename : String
  evalue : String
  traceback : List String
  other : List (String × Json)
deriving Repr, BEq

/-- `Output` (`notebook.rs` lines 255-270), internally tagged by
`output_type` with snake_case variant names. -/
inductive Output where
  | ExecuteResult (o : OutputExecuteResult)
  | DisplayData (o : OutputDisplayData)
  | Stream (o : OutputStream)
  | Error (o : OutputError)
deriving Repr, BEq

/-- `CodeCell` (`notebook.rs` lines 176-194). -/
structure CodeCell where
  id : Option String
  metadata : CellMetadata
  source : MultilineString
  execution_count : Option Nat
  outputs : List Output
deriving Repr, BEq

/-- `Cell` (`notebook.rs` lines 126-138), internally tagged by `cell_type`
with snake_case variant names. -/
inductive Cell where
  | Raw (c : RawCell)
  | Markdown (c : MarkdownCell)
  | Code (c : CodeCell)
deriving Repr, BEq

/-- `NotebookRoot` (`notebook.rs` lines 14-29). -/
structure NotebookRoot where
  metadata : NotebookMetadata
  nbformat_minor : Nat
  nbformat : Nat
  cells : List Cell
deriving Repr, BEq

/-! #### Decoders and encoders

Each pair mirrors the serde derives on the Rust type (see the modelling
conventions at the top of the file). -/

def decodeMultilineString : Json → Option MultilineString
  | .str s => some (.Single s)
  | .arr xs => (decList decStr xs).map .Multi
  | _ => none

def encodeMultilineString : MultilineString → Json
  | .Single s => .str s
  | .Multi v => .arr (v.map .str)

def decodeCodeMirrorMode : Json → Option CodeMirrorMode
  | .str s => some (.Str s)
  | .obj kvs => some (.Object kvs)
  | _ => none

def encodeCodeMirrorMode : CodeMirrorMode → Json
  | .Str s => .str s
  | .Object m => .obj m

def decodeMimeBundle : Json → Option MimeBundle
  | .obj kvs => some kvs
  | _ => none

def encodeMimeBundle (m : MimeBundle) : Json := .obj m

/-- Decode the entries of a `BTreeMap<String, MimeBundle>`: each value must
itself be an object. -/
def decodeAttachmentList : List (String × Json) → Option CellAttachments
  | [] => some []
  | (k, v) :: rest => do
      let m ← decodeMimeBundle v
      let ms ← decodeAttachmentList rest
      pure ((k, m) :: ms)

def decodeCellAttachments : Json → Option CellAttachments
  | .obj kvs => decodeAttachmentList kvs
  | _ => none

def encodeCellAttachments (a : CellAttachments) : Json :=
  .obj (a.map (fun kv => (kv.1, Json.obj kv.2)))

def recogKernelSpec : List String := ["name", "display_name"]

def decodeKernelSpec (j : Json) : Option KernelSpec := do
  let kvs ← jfields j
  let name ← (jget kvs "name").bind decStr
  let display_name ← (jget kvs "display_name").bind decStr
  pure ⟨name, display_name, othersOf kvs recogKernelSpec⟩

def encodeKernelSpec (x : KernelSpec) : Json :=
  .obj ([("name", .str x.name), ("display_name", .str x.display_name)] ++ x.other)

def recogLanguageInfo : List String :=
  ["name", "codemirror_mode", "file_extension", "mimetype", "pygments_lexer"]

def decodeLanguageInfo (j : Json) : Option LanguageInfo := do
  let kvs ← jfields j
  let name ← (jget kvs "name").bind decStr
  let codemirror_mode ← decOpt decodeCodeMirrorMode (jget kvs "codemirror_mode")
  let file_extension ← decOpt decStr (jget kvs "file_extension")
  let mimetype ← decOpt decStr (jget kvs "mimetype")
  let pygments_lexer ← decOpt decStr (jget kvs "pygments_lexer")
  pure ⟨name, codemirror_mode, file_extension, mimetype, pygments_lexer,
    othersOf kvs recogLanguageInfo⟩

def encodeLanguageInfo (x : LanguageInfo) : Json :=
  .obj ([("name", .str x.name),
         ("codemirror_mode", encOpt encodeCodeMirrorMode x.codemirror_mode),
         ("file_extension", encOpt .str x.file_extension),
         ("mimetype", encOpt .str x.mimetype),
         ("pygments_lexer", encOpt .str x.pygments_lexer)] ++ x.other)

def recogAuthor : List String := ["name"]

def decodeAuthor (j : Json) : Option Author := do
  let kvs ← jfields j
  let name ← decOpt decStr (jget kvs "name")
  pure ⟨name, othersOf kvs recogAuthor⟩

def encodeAuthor (x : Author) : Json :=
  .obj ([("name", encOpt .str x.name)] ++ x.other)

def decodeAuthorList (j : Json) : Option (List Author) :=
  (jitems j).bind (decList decodeAuthor)

def encodeAuthorList (xs : List Author) : Json :=
  .arr (xs.map encodeAuthor)

def recogNotebookMetadata : List String :=
  ["kernelspec", "language_info", "orig_nbformat", "title", "authors"]

def decodeNotebookMetadata (j : Json) : Option NotebookMetadata := do
  let kvs ← jfields j
  let kernelspec ← decOpt decodeKernelSpec (jget kvs "kernelspec")
  let language_info ← decOpt decodeLanguageInfo (jget kvs "language_info")
  let orig_nbformat ← decOpt decU8 (jget kvs "orig_nbformat")
  let title ← decOpt decStr (jget kvs "title")
  let authors ← decOpt decodeAuthorList (jget kvs "authors")
  pure ⟨kernelspec, language_info, orig_nbformat, title, authors,
    othersOf kvs recogNotebookMetadata⟩

def encodeNotebookMetadata (x : NotebookMetadata) : Json :=
  .obj ([("kernelspec", encOpt encodeKernelSpec x.kernelspec),
         ("language_info", encOpt encodeLanguageInfo x.language_info),
         ("orig_nbformat", encOpt (fun (n : Nat) => Json.num (n : Int)) x.orig_nbformat),
         ("title", encOpt .str x.title),
         ("authors", encOpt encodeAuthorList x.authors)] ++ x.other)

def decodeCellMetadata : Json → Option CellMetadata
  | .obj kvs => some ⟨kvs⟩
  | _ => none

def encodeCellMetadata (m : CellMetadata) : Json := .obj m.other

/-- Fields of `RawCell`; unknown keys are ignored (no flatten bag and no
`deny_unknown_fields` on this struct). -/
def decodeRawCell (j : Json) : Option RawCell := do
  let kvs ← jfields j
  let id ← decOpt decStr (jget kvs "id")
  let metadata ← (jget kvs "metadata").bind decodeCellMetadata
  let source ← (jget kvs "source").bind decodeMultilineString
  let attachments ← decOpt decodeCellAttachments (jget kvs "attachments")
  pure ⟨id, metadata, source, attachments⟩

def encodeRawCell (x : RawCell) : List (String × Json) :=
  [("id", encOpt .str x.id),
   ("metadata", encodeCellMetadata x.metadata),
   ("source", encodeMultilineString x.source),
   ("attachments", encOpt encodeCellAttachments x.attachments)]

def decodeMarkdownCell (j : Json) : Option MarkdownCell := do
  let kvs ← jfields j
  let id ← decOpt decStr (jget kvs "id")
  let metadata ← (jget kvs "metadata").bind decodeCellMetadata
  let source ← (jget kvs "source").bind decodeMultilineString
  let attachments ← decOpt decodeCellAttachments (jget kvs "attachments")
  pure ⟨id, metadata, source, attachments⟩

def encodeMarkdownCell (x : MarkdownCell) : List (String × Json) :=
  [("id", encOpt .str x.id),
   ("metadata", encodeCellMetadata x.metadata),
   ("source", encodeMultilineString x.source),
   ("attachments", encOpt encodeCellAttachments x.attachments)]

def recogOutputExecuteResult : List String :=
  ["execution_count", "data", "metadata"]

def decodeOutputExecuteResult (j : Json) : Option OutputExecuteResult := do
  let kvs ← jfields j
  let execution_count ← decOpt decU32 (jget kvs "execution_count")
  let data ← (jget kvs "data").bind decodeMimeBundle
  let metadata ← (jget kvs "metadata").bind decodeMimeBundle
  pure ⟨execution_count, data, metadata, othersOf kvs recogOutputExecuteResult⟩

def encodeOutputExecuteResult (x : OutputExecuteResult) : List (String × Json) :=
  [("execution_count", encOpt (fun (n : Nat) => Json.num (n : Int)) x.execution_count),
   ("data", encodeMimeBundle x.data),
   ("metadata", encodeMimeBundle x.metadata)] ++ x.other

def recogOutputDisplayData : List String := ["data", "metadata"]

def decodeOutputDisplayData (j : Json) : Option OutputDisplayData := do
  let kvs ← jfields j
  let data ← (jget kvs "data").bind decodeMimeBundle
  let metadata ← (jget kvs "metadata").bind decodeMimeBundle
  pure ⟨data, metadata, othersOf kvs recogOutputDisplayData⟩

def encodeOutputDisplayData (x : OutputDisplayData) : List (String × Json) :=
  [("data", encodeMimeBundle x.data),
   ("metadata", encodeMimeBundle x.metadata)] ++ x.other

def recogOutputStream : List String := ["name", "text"]

def decodeOutputStream (j : Json) : Option OutputStream := do
  let kvs ← jfields j
  let name ← (jget kvs "name").bind decStr
  let text ← (jget kvs "text").bind decodeMultilineString
  pure ⟨name, text, othersOf kvs recogOutputStream⟩

def encodeOutputStream (x : OutputStream) : List (String × Json) :=
  [("name", .str x.name),
   ("text", encodeMultilineString x.text)] ++ x.other

def recogOutputError : List String := ["ename", "evalue", "traceback"]

def decodeStringList : Json → Option (List String)
  | .arr xs => decList decStr xs
  | _ => none

def decodeOutputError (j : Json) : Option OutputError := do
  let kvs ← jfields j
  let ename ← (jget kvs "ename").bind decStr
  let evalue ← (jget kvs "evalue").bind decStr
  let traceback ← (jget kvs "traceback").bind decodeStringList
  pure ⟨ename, evalue, traceback, othersOf kvs recogOutputError⟩

def encodeOutputError (x : OutputError) : List (String × Json) :=
  [("ename", .str x.ename),
   ("evalue", .str x.evalue),
   ("traceback", .arr (x.traceback.map .str))] ++ x.other

/-- Internally-tagged dispatch on `output_type` (exact string match, no
fallback): serde reads the tag, then decodes the variant struct from the
remaining fields with the tag key removed. -/
def decodeOutput (j : Json) : Option Output := do
  let kvs ← jfields j
  match jget kvs "output_type" with
  | some (.str tag) =>
    let rest := kvs.filter (fun kv => kv.1 ≠ "output_type")
    if tag = "execute_result" then (decodeOutputExecuteResult (.obj rest)).map .ExecuteResult
    else if tag = "display_data" then (decodeOutputDisplayData (.obj rest)).map .DisplayData
    else if tag = "stream" then (decodeOutputStream (.obj rest)).map .Stream
    else if tag = "error" then (decodeOutputError (.obj rest)).map .Error
    else none
  | _ => none

/-- Serialization of the internally-tagged `Output`: the tag field first,
then the variant struct's fields. -/
def encodeOutput : Output → Json
  | .ExecuteResult o => .obj (("output_type", .str "execute_result") :: encodeOutputExecuteResult o)
  | .DisplayData o => .obj (("output_type", .str "display_data") :: encodeOutputDisplayData o)
  | .Stream o => .obj (("output_type", .str "stream") :: encodeOutputStream o)
  | .Error o => .obj (("output_type", .str "error") :: encodeOutputError o)

def decodeOutputList (j : Json) : Option (List Output) :=
  (jitems j).bind (decList decodeOutput)

def decodeCodeCell (j : Json) : Option CodeCell := do
  let kvs ← jfields j
  let id ← decOpt decStr (jget kvs "id")
  let metadata ← (jget kvs "metadata").bind decodeCellMetadata
  let source ← (jget kvs "source").bind decodeMultilineString
  let execution_count ← decOpt decU32 (jget kvs "execution_count")
  let outputs ← (jget kvs "outputs").bind decodeOutputList
  pure ⟨id, metadata, source, execution_count, outputs⟩

def encodeCodeCell (x : CodeCell) : List (String × Json) :=
  [("id", encOpt .str x.id),
   ("metadata", encodeCellMetadata x.metadata),
   ("source", encodeMultilineString x.source),
   ("execution_count", encOpt (fun (n : Nat) => Json.num (n : Int)) x.execution_count),
   ("outputs", .arr (x.outputs.map encodeOutput))]

/-- Internally-tagged dispatch on `cell_type` (exact string match, no
fallback). -/
def decodeCell (j : Json) : Option Cell := do
  let kvs ← jfields j
  match jget kvs "cell_type" with
  | some (.str tag) =>
    let rest := kvs.filter (fun kv => kv.1 ≠ "cell_type")
    if tag = "raw" then (decodeRawCell (.obj rest)).map .Raw
    else if tag = "markdown" then (decodeMarkdownCell (.obj rest)).map .Markdown
    else if tag = "code" then (decodeCodeCell (.obj rest)).map .Code
    else none
  | _ => none

def encodeCell : Cell → Json
  | .Raw c => .obj (("cell_type", .str "raw") :: encodeRawCell c)
  | .Markdown c => .obj (("cell_type", .str "markdown") :: encodeMarkdownCell c)
  | .Code c => .obj (("cell_type", .str "code") :: encodeCodeCell c)

def decodeCellList (j : Json) : Option (List Cell) :=
  (jitems j).bind (decList decodeCell)

/-- Decode a whole notebook document (`NotebookRoot`); unknown top-level
keys are ignored (no flatten bag on `NotebookRoot`). -/
def decodeNotebook (j : Json) : Option NotebookRoot := do
  let kvs ← jfields j
  let metadata ← (jget kvs "metadata").bind decodeNotebookMetadata
  let nbformat_minor ← (jget kvs "nbformat_minor").bind decU8
  let nbformat ← (jget kvs "nbformat").bind decU8
  let cells ← (jget kvs "cells").bind decodeCellList
  pure ⟨metadata, nbformat_minor, nbformat, cells⟩

def encodeNotebook (x : NotebookRoot) : Json :=
  .obj [("metadata", encodeNotebookMetadata x.metadata),
        ("nbformat_minor", .num (x.nbformat_minor : Int)),
        ("nbformat", .num (x.nbformat : Int)),
        ("cells", .arr (x.cells.map encodeCell))]

/-! #### Round-trip lemmas: re-decoding an encoded value gives it back -/

theorem mem_othersOf (kv : String × Json) (kvs : List (String × Json))
    (recog : List String) (h : kv ∈ othersOf kvs recog) : kv ∈ kvs :=
  List.mem_of_mem_filter h

/-- Unconditional variant of `decOpt_rt` for inner codecs that round-trip on
every value. -/
theorem decOpt_enc (f : Json → Option α) (g : α → Json)
    (hne : ∀ y, g y ≠ Json.null)
    (hrt : ∀ y, f (g y) = some y)
    (oy : Option α) :
    decOpt f (some (encOpt g oy)) = some oy := by
  cases oy with
  | none => simp [encOpt, decOpt]
  | some y =>
    have hgy := hrt y
    rcases hg : g y with _ | b | n | s | es | fs
    · exact absurd hg (hne y)
    all_goals (rw [hg] at hgy; simp [encOpt, hg, decOpt, hgy])

theorem decList_str_enc (v : List String) :
    decList decStr (v.map Json.str) = some v := by
  induction v with
  | nil => simp [decList]
  | cons s rest ih => simp [decList, decStr, ih]

theorem rt_multilineString (m : MultilineString) :
    decodeMultilineString (encodeMultilineString m) = some m := by
  cases m with
  | Single s => rfl
  | Multi v =>
    simp [encodeMultilineString, decodeMultilineString, decList_str_enc]

theorem rt_codeMirrorMode (m : CodeMirrorMode) :
    decodeCodeMirrorMode (encodeCodeMirrorMode m) = some m := by
  cases m <;> rfl

theorem rt_mimeBundle (m : MimeBundle) :
    decodeMimeBundle (encodeMimeBundle m) = some m := rfl

theorem rt_cellAttachments (a : CellAttachments) :
    decodeCellAttachments (encodeCellAttachments a) = some a := by
  simp only [encodeCellAttachments, decodeCellAttachments]
  induction a with
  | nil => simp [decodeAttachmentList]
  | cons kv rest ih =>
    simp [decodeAttachmentList, decodeMimeBundle, ih]

theorem rt_cellMetadata (m : CellMetadata) :
    decodeCellMetadata (encodeCellMetadata m) = some m := rfl

theorem rt_stringList (xs : List String) :
    decodeStringList (.arr (xs.map .str)) = some xs := by
  simp [decodeStringList, decList_str_enc]

theorem rt_kernelSpec (j : Json) (x : KernelSpec)
    (h : decodeKernelSpec j = some x) :
    decodeKernelSpec (encodeKernelSpec x) = some x := by
  simp only [decodeKernelSpec, Option.pure_def, Option.bind_eq_bind,
    Option.bind_eq_some, Option.some.injEq] at h
  obtain ⟨kvs, hkvs, name, hname, dn, hdn, hx⟩ := h
  subst hx
  simp [decodeKernelSpec, encodeKernelSpec, jfields, jget, decStr, othersOf,
    recogKernelSpec, List.filter_filter]

theorem rt_u8 (j : Json) (n : Nat) (h : decU8 j = some n) :
    decU8 (Json.num (n : Int)) = some n := by
  have hn : n < 256 := by
    rcases j with _ | b | m | s | es | kvs
    · exact Option.noConfusion h
    · exact Option.noConfusion h
    · simp only [decU8] at h
      split at h
      · next hc =>
          obtain rfl : m.toNat = n := by simpa using h
          omega
      · exact Option.noConfusion h
    · exact Option.noConfusion h
    · exact Option.noConfusion h
    · exact Option.noConfusion h
  have h0 : (0 : Int) ≤ (n : Int) := Int.ofNat_nonneg n
  have h1 : ((n : Int) < 256) := by exact_mod_cast hn
  simp [decU8, h0, h1]

theorem rt_u32 (j : Json) (n : Nat) (h : decU32 j = some n) :
    decU32 (Json.num (n : Int)) = some n := by
  have hn : n < 4294967296 := by
    rcases j with _ | b | m | s | es | kvs
    · exact Option.noConfusion h
    · exact Option.noConfusion h
    · simp only [decU32] at h
      split at h
      · next hc =>
          obtain rfl : m.toNat = n := by simpa using h
          omega
      · exact Option.noConfusion h
    · exact Option.noConfusion h
    · exact Option.noConfusion h
    · exact Option.noConfusion h
  have h0 : (0 : Int) ≤ (n : Int) := Int.ofNat_nonneg n
  have h1 : ((n : Int) < 4294967296) := by exact_mod_cast hn
  simp [decU32, h0, h1]

theorem rt_languageInfo (j : Json) (x : LanguageInfo)
    (h : decodeLanguageInfo j = some x) :
    decodeLanguageInfo (encodeLanguageInfo x) = some x := by
  simp only [decodeLanguageInfo, Option.pure_def, Option.bind_eq_bind,
    Option.bind_eq_some, Option.some.injEq] at h
  obtain ⟨kvs, hkvs, name, hname, cm, hcm, fe, hfe, mt, hmt, pl, hpl, hx⟩ := h
  subst hx
  have h1 : decOpt decodeCodeMirrorMode (some (encOpt encodeCodeMirrorMode cm)) = some cm :=
    decOpt_enc decodeCodeMirrorMode encodeCodeMirrorMode
      (by intro y; cases y <;> simp [encodeCodeMirrorMode]) rt_codeMirrorMode cm
  have h2 : decOpt decStr (some (encOpt Json.str fe)) = some fe :=
    decOpt_enc decStr Json.str (by intro y; simp) (fun y => rfl) fe
  have h3 : decOpt decStr (some (encOpt Json.str mt)) = some mt :=
    decOpt_enc decStr Json.str (by intro y; simp) (fun y => rfl) mt
  have h4 : decOpt decStr (some (encOpt Json.str pl)) = some pl :=
    decOpt_enc decStr Json.str (by intro y; simp) (fun y => rfl) pl
  simp [decodeLanguageInfo, encodeLanguageInfo, jfields, jget, decStr,
    h1, h2, h3, h4, othersOf, recogLanguageInfo, List.filter_filter]

theorem rt_author (j : Json) (x : Author)
    (h : decodeAuthor j = some x) :
    decodeAuthor (encodeAuthor x) = some x := by
  simp only [decodeAuthor, Option.pure_def, Option.bind_eq_bind,
    Option.bind_eq_some, Option.some.injEq] at h
  obtain ⟨kvs, hkvs, name, hname, hx⟩ := h
  subst hx
  have h1 : decOpt decStr (some (encOpt Json.str name)) = some name :=
    decOpt_enc decStr Json.str (by intro y; simp) (fun y => rfl) name
  simp [decodeAuthor, encodeAuthor, jfields, jget, h1, othersOf,
    recogAuthor, List.filter_filter]

theorem rt_authorList (j : Json) (xs : List Author)
    (h : decodeAuthorList j = some xs) :
    decodeAuthorList (encodeAuthorList xs) = some xs := by
  simp only [decodeAuthorList, Option.bind_eq_some] at h
  obtain ⟨js, hjs, hdec⟩ := h
  simp only [encodeAuthorList, decodeAuthorList, jitems, Option.some_bind]
  exact decList_map_of_rt _ _ js xs rt_author hdec

theorem rt_notebookMetadata (j : Json) (x : NotebookMetadata)
    (h : decodeNotebookMetadata j = some x) :
    decodeNotebookMetadata (encodeNotebookMetadata x) = some x := by
  simp only [decodeNotebookMetadata, Option.pure_def, Option.bind_eq_bind,
    Option.bind_eq_some, Option.some.injEq] at h
  obtain ⟨kvs, hkvs, ks, hks, li, hli, onb, honb, ti, hti, au, hau, hx⟩ := h
  subst hx
  have h1 : decOpt decodeKernelSpec (some (encOpt encodeKernelSpec ks)) = some ks :=
    decOpt_rt _ _ _ _ (by intro y; simp [encodeKernelSpec]) rt_kernelSpec hks
  have h2 : decOpt decodeLanguageInfo (some (encOpt encodeLanguageInfo li)) = some li :=
    decOpt_rt _ _ _ _ (by intro y; simp [encodeLanguageInfo]) rt_languageInfo hli
  have h3 : decOpt decU8 (some (encOpt (fun (n : Nat) => Json.num (n : Int)) onb)) = some onb :=
    decOpt_rt decU8 (fun (n : Nat) => Json.num (n : Int)) _ _ (by intro y; simp) rt_u8 honb
  have h4 : decOpt decStr (some (encOpt Json.str ti)) = some ti :=
    decOpt_enc decStr Json.str (by intro y; simp) (fun y => rfl) ti
  have h5 : decOpt decodeAuthorList (some (encOpt encodeAuthorList au)) = some au :=
    decOpt_rt _ _ _ _ (by intro y; simp [encodeAuthorList]) rt_authorList hau
  simp [decodeNotebookMetadata, encodeNotebookMetadata, jfields, jget,
    h1, h2, h3, h4, h5, othersOf, recogNotebookMetadata, List.filter_filter]

theorem rt_rawCell (x : RawCell) :
    decodeRawCell (.obj (encodeRawCell x)) = some x := by
  have h1 : decOpt decStr (some (encOpt Json.str x.id)) = some x.id :=
    decOpt_enc decStr Json.str (by intro y; simp) (fun y => rfl) x.id
  have h2 : decOpt decodeCellAttachments
      (some (encOpt encodeCellAttachments x.attachments)) = some x.attachments :=
    decOpt_enc decodeCellAttachments encodeCellAttachments
      (by intro y; simp [encodeCellAttachments]) rt_cellAttachments x.attachments
  simp [decodeRawCell, encodeRawCell, jfields, jget, h1, h2,
    encodeCellMetadata, decodeCellMetadata, rt_multilineString]

theorem rt_markdownCell (x : MarkdownCell) :
    decodeMarkdownCell (.obj (encodeMarkdownCell x)) = some x := by
  have h1 : decOpt decStr (some (encOpt Json.str x.id)) = some x.id :=
    decOpt_enc decStr Json.str (by intro y; simp) (fun y => rfl) x.id
  have h2 : decOpt decodeCellAttachments
      (some (encOpt encodeCellAttachments x.attachments)) = some x.attachments :=
    decOpt_enc decodeCellAttachments encodeCellAttachments
      (by intro y; simp [encodeCellAttachments]) rt_cellAttachments x.attachments
  simp [decodeMarkdownCell, encodeMarkdownCell, jfields, jget, h1, h2,
    encodeCellMetadata, decodeCellMetadata, rt_multilineString]

theorem rt_outputExecuteResult (j : Json) (x : OutputExecuteResult)
    (h : decodeOutputExecuteResult j = some x) :
    decodeOutputExecuteResult (.obj (encodeOutputExecuteResult x)) = some x := by
  simp only [decodeOutputExecuteResult, Option.pure_def, Option.bind_eq_bind,
    Option.bind_eq_some, Option.some.injEq] at h
  obtain ⟨kvs, hkvs, ec, hec, data, hdata, md, hmd, hx⟩ := h
  subst hx
  have h1 : decOpt decU32 (some (encOpt (fun (n : Nat) => Json.num (n : Int)) ec)) = some ec :=
    decOpt_rt decU32 (fun (n : Nat) => Json.num (n : Int)) _ _ (by intro y; simp) rt_u32 hec
  simp [decodeOutputExecuteResult, encodeOutputExecuteResult, jfields, jget,
    h1, encodeMimeBundle, decodeMimeBundle, othersOf,
    recogOutputExecuteResult, List.filter_filter]

theorem decodeOutputExecuteResult_other (kvs : List (String × Json))
    (x : OutputExecuteResult) (h : decodeOutputExecuteResult (.obj kvs) = some x) :
    x.other = othersOf kvs recogOutputExecuteResult := by
  simp only [decodeOutputExecuteResult, jfields, Option.pure_def, Option.some_bind,
    Option.bind_eq_bind, Option.bind_eq_some, Option.some.injEq] at h
  obtain ⟨ec, hec, data, hdata, md, hmd, hx⟩ := h
  rw [← hx]

theorem rt_outputDisplayData (j : Json) (x : OutputDisplayData)
    (h : decodeOutputDisplayData j = some x) :
    decodeOutputDisplayData (.obj (encodeOutputDisplayData x)) = some x := by
  simp only [decodeOutputDisplayData, Option.pure_def, Option.bind_eq_bind,
    Option.bind_eq_some, Option.some.injEq] at h
  obtain ⟨kvs, hkvs, data, hdata, md, hmd, hx⟩ := h
  subst hx
  simp [decodeOutputDisplayData, encodeOutputDisplayData, jfields, jget,
    encodeMimeBundle, decodeMimeBundle, othersOf, recogOutputDisplayData,
    List.filter_filter]

theorem decodeOutputDisplayData_other (kvs : List (String × Json))
    (x : OutputDisplayData) (h : decodeOutputDisplayData (.obj kvs) = some x) :
    x.other = othersOf kvs recogOutputDisplayData := by
  simp only [decodeOutputDisplayData, jfields, Option.pure_def, Option.some_bind,
    Option.bind_eq_bind, Option.bind_eq_some, Option.some.injEq] at h
  obtain ⟨data, hdata, md, hmd, hx⟩ := h
  rw [← hx]

theorem rt_outputStream (j : Json) (x : OutputStream)
    (h : decodeOutputStream j = some x) :
    decodeOutputStream (.obj (encodeOutputStream x)) = some x := by
  simp only [decodeOutputStream, Option.pure_def, Option.bind_eq_bind,
    Option.bind_eq_some, Option.some.injEq] at h
  obtain ⟨kvs, hkvs, name, hname, text, htext, hx⟩ := h
  subst hx
  simp [decodeOutputStream, encodeOutputStream, jfields, jget, decStr,
    rt_multilineString, othersOf, recogOutputStream, List.filter_filter]

theorem decodeOutputStream_other (kvs : List (String × Json))
    (x : OutputStream) (h : decodeOutputStream (.obj kvs) = some x) :
    x.other = othersOf kvs recogOutputStream := by
  simp only [decodeOutputStream, jfields, Option.pure_def, Option.some_bind,
    Option.bind_eq_bind, Option.bind_eq_some, Option.some.injEq] at h
  obtain ⟨name, hname, text, htext, hx⟩ := h
  rw [← hx]

theorem rt_outputError (j : Json) (x : OutputError)
    (h : decodeOutputError j = some x) :
    decodeOutputError (.obj (encodeOutputError x)) = some x := by
  simp only [decodeOutputError, Option.pure_def, Option.bind_eq_bind,
    Option.bind_eq_some, Option.some.injEq] at h
  obtain ⟨kvs, hkvs, ename, hename, evalue, hevalue, tb, htb, hx⟩ := h
  subst hx
  simp [decodeOutputError, encodeOutputError, jfields, jget, decStr,
    rt_stringList, othersOf, recogOutputError, List.filter_filter]

theorem decodeOutputError_other (kvs : List (String × Json))
    (x : OutputError) (h : decodeOutputError (.obj kvs) = some x) :
    x.other = othersOf kvs recogOutputError := by
  simp only [decodeOutputError, jfields, Option.pure_def, Option.some_bind,
    Option.bind_eq_bind, Option.bind_eq_some, Option.some.injEq] at h
  obtain ⟨ename, hename, evalue, hevalue, tb, htb, hx⟩ := h
  rw [← hx]

/-- Keys surviving the tag-removal filter never equal the tag key, so
filtering the flatten bag by the tag key changes nothing. -/
theorem bag_filter_tag (bag : List (String × Json)) (kvs : List (String × Json))
    (recog : List String) (tagKey : String)
    (hbag : bag = othersOf (kvs.filter (fun kv => kv.1 ≠ tagKey)) recog) :
    bag.filter (fun kv => kv.1 ≠ tagKey) = bag := by
  apply List.filter_eq_self.mpr
  intro kv hkv
  rw [hbag] at hkv
  have h1 : kv ∈ kvs.filter (fun kv => kv.1 ≠ tagKey) := mem_othersOf kv _ _ hkv
  exact (List.mem_filter.mp h1).2

theorem rt_output (j : Json) (x : Output)
    (h : decodeOutput j = some x) :
    decodeOutput (encodeOutput x) = some x := by
  simp only [decodeOutput, Option.bind_eq_bind, Option.bind_eq_some] at h
  obtain ⟨kvs, hkvs, hmatch⟩ := h
  split at hmatch
  case h_2 => exact Option.noConfusion hmatch
  case h_1 tag heq =>
    split_ifs at hmatch with h_er h_dd h_st h_err
    · subst h_er
      rw [Option.map_eq_some'] at hmatch
      obtain ⟨o, ho, rfl⟩ := hmatch
      have hother := decodeOutputExecuteResult_other _ _ ho
      have hbag : ∀ kv ∈ o.other, (!decide (kv.1 = "output_type")) = true := by
        intro kv hkv
        rw [hother] at hkv
        have h1 := mem_othersOf _ _ _ hkv
        have h2 := (List.mem_filter.mp h1).2
        simpa using h2
      have hrest : (encodeOutputExecuteResult o).filter
          (fun kv => !decide (kv.1 = "output_type")) = encodeOutputExecuteResult o := by
        apply List.filter_eq_self.mpr
        intro kv hkv
        simp only [encodeOutputExecuteResult, List.mem_append, List.mem_cons, List.not_mem_nil, or_false] at hkv
        rcases hkv with (h0 | h1 | h2) | hmem
        · subst h0; simp
        · subst h1; simp
        · subst h2; simp
        · exact hbag kv hmem
      simp [decodeOutput, encodeOutput, jfields, jget, hrest,
        rt_outputExecuteResult _ _ ho]
    · subst h_dd
      rw [Option.map_eq_some'] at hmatch
      obtain ⟨o, ho, rfl⟩ := hmatch
      have hother := decodeOutputDisplayData_other _ _ ho
      have hbag : ∀ kv ∈ o.other, (!decide (kv.1 = "output_type")) = true := by
        intro kv hkv
        rw [hother] at hkv
        have h1 := mem_othersOf _ _ _ hkv
        have h2 := (List.mem_filter.mp h1).2
        simpa using h2
      have hrest : (encodeOutputDisplayData o).filter
          (fun kv => !decide (kv.1 = "output_type")) = encodeOutputDisplayData o := by
        apply List.filter_eq_self.mpr
        intro kv hkv
        simp only [encodeOutputDisplayData, List.mem_append, List.mem_cons, List.not_mem_nil, or_false] at hkv
        rcases hkv with (h0 | h1) | hmem
        · subst h0; simp
        · subst h1; simp
        · exact hbag kv hmem
      simp [decodeOutput, encodeOutput, jfields, jget, hrest,
        rt_outputDisplayData _ _ ho]
    · subst h_st
      rw [Option.map_eq_some'] at hmatch
      obtain ⟨o, ho, rfl⟩ := hmatch
      have hother := decodeOutputStream_other _ _ ho
      have hbag : ∀ kv ∈ o.other, (!decide (kv.1 = "output_type")) = true := by
        intro kv hkv
        rw [hother] at hkv
        have h1 := mem_othersOf _ _ _ hkv
        have h2 := (List.mem_filter.mp h1).2
        simpa using h2
      have hrest : (encodeOutputStream o).filter
          (fun kv => !decide (kv.1 = "output_type")) = encodeOutputStream o := by
        apply List.filter_eq_self.mpr
        intro kv hkv
        simp only [encodeOutputStream, List.mem_append, List.mem_cons, List.not_mem_nil, or_false] at hkv
        rcases hkv with (h0 | h1) | hmem
        · subst h0; simp
        · subst h1; simp
        · exact hbag kv hmem
      simp [decodeOutput, encodeOutput, jfields, jget, hrest,
        rt_outputStream _ _ ho]
    · subst h_err
      rw [Option.map_eq_some'] at hmatch
      obtain ⟨o, ho, rfl⟩ := hmatch
      have hother := decodeOutputError_other _ _ ho
      have hbag : ∀ kv ∈ o.other, (!decide (kv.1 = "output_type")) = true := by
        intro kv hkv
        rw [hother] at hkv
        have h1 := mem_othersOf _ _ _ hkv
        have h2 := (List.mem_filter.mp h1).2
        simpa using h2
      have hrest : (encodeOutputError o).filter
          (fun kv => !decide (kv.1 = "output_type")) = encodeOutputError o := by
        apply List.filter_eq_self.mpr
        intro kv hkv
        simp only [encodeOutputError, List.mem_append, List.mem_cons, List.not_mem_nil, or_false] at hkv
        rcases hkv with (h0 | h1 | h2) | hmem
        · subst h0; simp
        · subst h1; simp
        · subst h2; simp
        · exact hbag kv hmem
      simp [decodeOutput, encodeOutput, jfields, jget, hrest,
        rt_outputError _ _ ho]

theorem rt_codeCell (j : Json) (x : CodeCell)
    (h : decodeCodeCell j = some x) :
    decodeCodeCell (.obj (encodeCodeCell x)) = some x := by
  simp only [decodeCodeCell, Option.pure_def, Option.bind_eq_bind,
    Option.bind_eq_some, Option.some.injEq] at h
  obtain ⟨kvs, hkvs, cid, hid, md, hmd, srcv, hsrc, ec, hec, outs, houts, hx⟩ := h
  subst hx
  have h1 : decOpt decStr (some (encOpt Json.str cid)) = some cid :=
    decOpt_enc decStr Json.str (by intro y; simp) (fun y => rfl) cid
  have h2 : decOpt decU32 (some (encOpt (fun (n : Nat) => Json.num (n : Int)) ec)) = some ec :=
    decOpt_rt decU32 (fun (n : Nat) => Json.num (n : Int)) _ _ (by intro y; simp) rt_u32 hec
  obtain ⟨ja, hja, houts2⟩ := houts
  have h3 : decodeOutputList (.arr (outs.map encodeOutput)) = some outs := by
    simp only [decodeOutputList, Option.bind_eq_some] at houts2
    obtain ⟨js, hjs, hdec⟩ := houts2
    simp only [decodeOutputList, jitems, Option.some_bind]
    exact decList_map_of_rt _ _ js outs rt_output hdec
  simp [decodeCodeCell, encodeCodeCell, jfields, jget, h1, h2, h3,
    encodeCellMetadata, decodeCellMetadata, rt_multilineString]

theorem rt_cell (j : Json) (x : Cell)
    (h : decodeCell j = some x) :
    decodeCell (encodeCell x) = some x := by
  simp only [decodeCell, Option.bind_eq_bind, Option.bind_eq_some] at h
  obtain ⟨kvs, hkvs, hmatch⟩ := h
  split at hmatch
  case h_2 => exact Option.noConfusion hmatch
  case h_1 tag heq =>
    split_ifs at hmatch with h_raw h_md h_code
    · subst h_raw
      rw [Option.map_eq_some'] at hmatch
      obtain ⟨c, hc, rfl⟩ := hmatch
      have hrest : (encodeRawCell c).filter
          (fun kv => !decide (kv.1 = "cell_type")) = encodeRawCell c := by
        simp [encodeRawCell]
      simp [decodeCell, encodeCell, jfields, jget, hrest, rt_rawCell c]
    · subst h_md
      rw [Option.map_eq_some'] at hmatch
      obtain ⟨c, hc, rfl⟩ := hmatch
      have hrest : (encodeMarkdownCell c).filter
          (fun kv => !decide (kv.1 = "cell_type")) = encodeMarkdownCell c := by
        simp [encodeMarkdownCell]
      simp [decodeCell, encodeCell, jfields, jget, hrest, rt_markdownCell c]
    · subst h_code
      rw [Option.map_eq_some'] at hmatch
      obtain ⟨c, hc, rfl⟩ := hmatch
      have hrest : (encodeCodeCell c).filter
          (fun kv => !decide (kv.1 = "cell_type")) = encodeCodeCell c := by
        simp [encodeCodeCell]
      simp [decodeCell, encodeCell, jfields, jget, hrest, rt_codeCell _ _ hc]

/-- C1: for every document value obtainable by decoding a conforming JSON
notebook document (arbitrary extra keys in any metadata object included),
re-encoding and re-decoding is the identity, with every unrecognized field
preserved verbatim under its original key (it lives in the `other` bag of
the decoded value, which encoding emits unchanged and decoding collects
back unchanged). -/
theorem spec_c1_decode_encode_roundtrip (j : Json) (x : NotebookRoot)
    (h : decodeNotebook j = some x) :
    decodeNotebook (encodeNotebook x) = some x := by
  simp only [decodeNotebook, Option.pure_def, Option.bind_eq_bind,
    Option.bind_eq_some, Option.some.injEq] at h
  obtain ⟨kvs, hkvs, md, hmd, nbm, hnbm, nbf, hnbf, cells, hcells, hx⟩ := h
  subst hx
  obtain ⟨jm, hjm, hm⟩ := hmd
  obtain ⟨jn1, hjn1, hn1⟩ := hnbm
  obtain ⟨jn2, hjn2, hn2⟩ := hnbf
  obtain ⟨jc, hjc, hcells2⟩ := hcells
  have h1 := rt_notebookMetadata _ _ hm
  have h2 := rt_u8 _ _ hn1
  have h3 := rt_u8 _ _ hn2
  have h4 : decodeCellList (.arr (cells.map encodeCell)) = some cells := by
    simp only [decodeCellList, Option.bind_eq_some] at hcells2
    obtain ⟨js, hjs, hdec⟩ := hcells2
    simp only [decodeCellList, jitems, Option.some_bind]
    exact decList_map_of_rt _ _ js cells rt_cell hdec
  simp [decodeNotebook, encodeNotebook, jfields, jget, h1, h2, h3, h4]

/-- A small conforming notebook document with unrecognized keys injected
into the document-level, kernelspec-level and cell-level metadata (modelled
on the repository's own `parse_notebook` test). -/
def sampleNotebookJson : Json :=
  .obj [("metadata", .obj [
          ("kernelspec", .obj [("name", .str "python3"),
                               ("display_name", .str "Python 3"),
                               ("custom", .str "metadata")]),
          ("orig_nbformat", .num 4),
          ("custom", .str "metadata")]),
        ("nbformat_minor", .num 4),
        ("nbformat", .num 4),
        ("cells", .arr [
          .obj [("cell_type", .str "code"),
                ("id", .str "cell-1"),
                ("metadata", .obj [("custom", .str "metadata")]),
                ("source", .str "print(1)"),
                ("execution_count", .num 1),
                ("outputs", .arr [
                  .obj [("output_type", .str "execute_result"),
                        ("execution_count", .num 1),
                        ("data", .obj [("text/plain", .str "hi")]),
                        ("metadata", .obj [])]])]])]

/-- The value `sampleNotebookJson` decodes to. -/
def sampleNotebook : NotebookRoot :=
  { metadata := { kernelspec := some { name := "python3",
                                       display_name := "Python 3",
                                       other := [("custom", .str "metadata")] },
                  language_info := none,
                  orig_nbformat := some 4,
                  title := none,
                  authors := none,
                  other := [("custom", .str "metadata")] },
    nbformat_minor := 4,
    nbformat := 4,
    cells := [ .Code { id := some "cell-1",
                       metadata := ⟨[("custom", .str "metadata")]⟩,
                       source := .Single "print(1)",
                       execution_count := some 1,
                       outputs := [ .ExecuteResult
                         { execution_count := some 1,
                           data := [("text/plain", .str "hi")],
                           metadata := [],
                           other := [] } ] } ] }

theorem spec_c1_witness :
    decodeNotebook sampleNotebookJson = some sampleNotebook ∧
    decodeNotebook (encodeNotebook sampleNotebook) = some sampleNotebook :=
  ⟨by rfl, spec_c1_decode_encode_roundtrip sampleNotebookJson sampleNotebook (by rfl)⟩

/-- C5: decoding a cell or output object whose `cell_type` / `output_type`
tag is not one of the recognized values, or whose tag field is missing,
fails; the match is exact string comparison with no fallback variant. -/
theorem spec_c5_unknown_tag_is_decode_error :
    (∀ (kvs : List (String × Json)) (tag : String),
        tag ∉ (["raw", "markdown", "code"] : List String) →
        decodeCell (.obj (("cell_type", .str tag) :: kvs)) = none) ∧
    (∀ (kvs : List (String × Json)),
        jget kvs "cell_type" = none →
        decodeCell (.obj kvs) = none) ∧
    (∀ (kvs : List (String × Json)) (tag : String),
        tag ∉ (["execute_result", "display_data", "stream", "error"] : List String) →
        decodeOutput (.obj (("output_type", .str tag) :: kvs)) = none) ∧
    (∀ (kvs : List (String × Json)),
        jget kvs "output_type" = none →
        decodeOutput (.obj kvs) = none) := by
  refine ⟨?_, ?_, ?_, ?_⟩
  · intro kvs tag htag
    simp only [List.mem_cons, List.mem_singleton, List.not_mem_nil, or_false,
      not_or] at htag
    obtain ⟨h1, h2, h3⟩ := htag
    simp [decodeCell, jfields, jget, h1, h2, h3]
  · intro kvs hmiss
    simp [decodeCell, jfields, hmiss]
  · intro kvs tag htag
    simp only [List.mem_cons, List.mem_singleton, List.not_mem_nil, or_false,
      not_or] at htag
    obtain ⟨h1, h2, h3, h4⟩ := htag
    simp [decodeOutput, jfields, jget, h1, h2, h3, h4]
  · intro kvs hmiss
    simp [decodeOutput, jfields, hmiss]

theorem spec_c5_witness :
    decodeCell (.obj [("cell_type", .str "Raw"), ("metadata", .obj []),
      ("source", .str "")]) = none ∧
    decodeCell (.obj [("metadata", .obj []), ("source", .str "")]) = none ∧
    decodeOutput (.obj [("output_type", .str "unknown")]) = none ∧
    decodeOutput (.obj [("ename", .str "E")]) = none :=
  ⟨spec_c5_unknown_tag_is_decode_error.1 _ "Raw" (by decide),
   spec_c5_unknown_tag_is_decode_error.2.1 _ (by rfl),
   spec_c5_unknown_tag_is_decode_error.2.2.1 _ "unknown" (by decide),
   spec_c5_unknown_tag_is_decode_error.2.2.2 _ (by rfl)⟩

theorem map_dropLast_eq (f : α → β) (l : List α) :
    (l.map f).dropLast = l.dropLast.map f := by
  induction l with
  | nil => rfl
  | cons a t ih =>
    cases t with
    | nil => rfl
    | cons b u => simpa [List.dropLast_cons₂] using ih

/-- The logical text of a `MultilineString`: its fragments joined. -/
theorem mlsToString_source (m : MultilineString) :
    mlsToString m = match m with
      | .Single s => s
      | .Multi v => String.join v := by
  cases m with
  | Single s => rfl
  | Multi v => exact mlsToString_multi v

/-- C2: `normalize` maps any input (string or array form) to the array form
by concatenating all fragments and re-splitting after each newline: the
produced fragments concatenate back to the input's logical text and every
fragment except possibly the last ends with a newline; and the four listed
examples hold. -/
theorem spec_c2_normalize_resplits_after_newlines :
    (∀ (m : MultilineString), ∃ l : List String,
        m.normalize = .Multi l ∧
        String.join l = mlsToString m ∧
        (∀ frag ∈ l.dropLast, frag.data.getLast? = some '\n')) ∧
    (MultilineString.Single "").normalize = .Multi [] ∧
    (MultilineString.Single "a").normalize = .Multi ["a"] ∧
    (MultilineString.Single "a\nb").normalize = .Multi ["a\n", "b"] ∧
    (MultilineString.Single "a\n\nb\n").normalize = .Multi ["a\n", "\n", "b\n"] := by
  refine ⟨?_, ?_, ?_, ?_, ?_⟩
  · intro m
    refine ⟨splitLines (match m with
      | .Single s => s
      | .Multi v => String.join v), ?_, ?_, ?_⟩
    · cases m <;> rfl
    · rw [string_join_splitLines, mlsToString_source]
    · intro frag hfrag
      rw [splitLines, splitNlLoop_eq_splitNl, map_dropLast_eq] at hfrag
      rw [List.mem_map] at hfrag
      obtain ⟨cs, hcs, rfl⟩ := hfrag
      exact splitNl_dropLast_ends_nl _ cs hcs
  all_goals
    simp only [MultilineString.normalize, splitLines, splitNlLoop_eq_splitNl]
    try decide

/-- C8: `normalize` is idempotent on every `MultilineString`. -/
theorem spec_c8_normalize_idempotent (m : MultilineString) :
    m.normalize.normalize = m.normalize := by
  cases m with
  | Single s => simp [MultilineString.normalize, string_join_splitLines]
  | Multi v => simp [MultilineString.normalize, string_join_splitLines]

/-- C9: `normalize` always yields the `Multi` variant, preserves the logical
text (`String::from` of the result equals `String::from` of the input), and
every produced fragment is non-empty with a newline occurring only as its
final character. -/
theorem spec_c9_normalize_shape (m : MultilineString) :
    ∃ l : List String,
      m.normalize = .Multi l ∧
      mlsToString m.normalize = mlsToString m ∧
      (∀ frag ∈ l, frag ≠ "" ∧ '\n' ∉ frag.data.dropLast) := by
  refine ⟨splitLines (match m with
    | .Single s => s
    | .Multi v => String.join v), ?_, ?_, ?_⟩
  · cases m <;> rfl
  · have h1 : m.normalize = .Multi (splitLines (match m with
      | .Single s => s
      | .Multi v => String.join v)) := by cases m <;> rfl
    rw [h1, mlsToString_multi, string_join_splitLines, mlsToString_source]
  · intro frag hfrag
    rw [splitLines, splitNlLoop_eq_splitNl, List.mem_map] at hfrag
    obtain ⟨cs, hcs, rfl⟩ := hfrag
    constructor
    · intro hempty
      have : cs = [] := congrArg String.data hempty
      exact splitNl_ne_nil _ cs hcs this
    · exact splitNl_no_inner_nl _ cs hcs

/-! ### Remote session client (`remote.rs`)

External-library behaviour used by this file is modelled from its documented
semantics: `url::Url` (hierarchical parse/join/to_string), `str::starts_with`
and `str::replacen`, `http::HeaderValue::from_str` validity, and reqwest's
`Response::error_for_status` (which errors exactly on client-error and
server-error statuses, 400-599).  Network effects (the HTTP response, the
WebSocket connect outcome) are passed in as explicit values. -/

/-- Modelled from the spec: the crate-level `Error` type is declared outside
the provided sources (`use crate::Error`); its taxonomy is taken from spec
section 7: `FormatError` (malformed content/body), `ConfigError`
(unparseable server URL), `RemoteError` (non-success HTTP status, wrapping
the status), `ConnectError` (transport channel failure). -/
inductive Error where
  | FormatError
  | ConfigError
  | RemoteError (status : Nat)
  | ConnectError
deriving Repr, BEq, DecidableEq

/-- Model of `url::Url` restricted to hierarchical `scheme://host[/path]`
URLs, the only shape this client manipulates.  `host` includes any port;
`path` also carries any query text; percent-encoding is not modelled (the
API paths and kernel ids used here are plain ASCII). -/
structure Url where
  scheme : String
  host : String
  path : String
deriving Repr, BEq, DecidableEq

/-- `str::starts_with` on our string model. -/
def startsWithStr (s pre : String) : Bool :=
  pre.data.isPrefixOf s.data

/-- Index of the first occurrence of `pat` in `l`, if any. -/
def findSub (pat : List Char) : List Char → Option Nat
  | [] => none
  | c :: t => if pat.isPrefixOf (c :: t) then some 0 else (findSub pat t).map (· + 1)

/-- Index of the first `'/'`. -/
def findSlash : List Char → Option Nat
  | [] => none
  | c :: t => if c = '/' then some 0 else (findSlash t).map (· + 1)

/-- Valid characters of a URL scheme after the first (RFC 3986). -/
def schemeCharOk (c : Char) : Bool :=
  c.isAlphanum || c == '+' || c == '-' || c == '.'

/-- Model of `url::Url::parse` for hierarchical URLs: a valid scheme
(lower-cased on parse, as the url crate does), `"://"`, a non-empty host
(up to the first `'/'`), and the rest as path (`"/"` when absent). -/
def Url.parse (s : String) : Option Url :=
  match findSub "://".data s.data with
  | none => none
  | some i =>
    let scheme := (s.data.take i).map Char.toLower
    let rest := s.data.drop (i + 3)
    let headAlpha := match scheme with
      | [] => false
      | c :: _ => c.isAlpha
    if headAlpha && scheme.all schemeCharOk then
      match findSlash rest with
      | none => if rest.isEmpty then none else some ⟨⟨scheme⟩, ⟨rest⟩, "/"⟩
      | some k =>
        let host := rest.take k
        if host.isEmpty then none else some ⟨⟨scheme⟩, ⟨host⟩, ⟨rest.drop k⟩⟩
    else none

/-- `url::Url::to_string` for the modelled shape. -/
def Url.toString (u : Url) : String :=
  u.scheme ++ "://" ++ u.host ++ u.path

/-- Everything up to and including the last `'/'`. -/
def dropAfterLastSlash (p : List Char) : List Char :=
  (p.reverse.dropWhile (fun c => c ≠ '/')).reverse

/-- Model of `url::Url::join` (RFC 3986 resolution for the two relevant
cases): an input starting with `'/'` replaces the whole path; otherwise the
input is resolved against the base path up to its last `'/'`. -/
def Url.join (u : Url) (input : String) : Option Url :=
  if startsWithStr input "/" then some { u with path := input }
  else some { u with path := ⟨dropAfterLastSlash u.path.data ++ input.data⟩ }

/-- `str::replacen(pat, rep, 1)` for a non-empty pattern: replace the first
occurrence of `pat`, scanning left to right, and leave the rest unchanged. -/
def replacen1 : List Char → List Char → List Char → List Char
  | [], _, _ => []
  | c :: t, pat, rep =>
    if pat.isPrefixOf (c :: t) then rep ++ (c :: t).drop pat.length
    else c :: replacen1 t pat rep

def replacen (s pat rep : String) : String :=
  ⟨replacen1 s.data pat.data rep.data⟩

/-- Information about a remote Jupyter kernel (`remote.rs` lines 152-170);
the ISO-8601 `last_activity` timestamp is kept as its text. -/
structure KernelInfo where
  id : String
  name : String
  last_activity : String
  execution_state : String
  connections : Nat
deriving Repr, BEq, DecidableEq

/-- The transport-URL derivation inside `RemoteKernel::start`
(`remote.rs` lines 30-38): join the fixed per-kernel channels path onto the
server URL, then rewrite the scheme prefix with one `replacen`:
`https://` becomes `wss://`, otherwise `http://` becomes `ws://`. -/
def derive_ws_url (server_url : Url) (kernel_id : String) : Option String :=
  match server_url.join ("/api/kernels/" ++ kernel_id ++ "/channels") with
  | none => none
  | some ws_url =>
    let s := ws_url.toString
    some (if startsWithStr s "https://" then replacen s "https://" "wss://"
          else replacen s "http://" "ws://")

/-- Outcome of a Rust function that may panic instead of returning. -/
inductive RustOutcome (α : Type) where
  | panicked
  | failed (e : Error)
  | ok (v : α)
deriving Repr, BEq, DecidableEq

/-- `JupyterClient` (`remote.rs` lines 69-74): base URL, token, and the
default headers attached to every request by the underlying HTTP client. -/
structure JupyterClient where
  server_url : Url
  token : String
  default_headers : List (String × String)
deriving Repr, BEq, DecidableEq

/-- `http::HeaderValue::from_str` validity: every byte must be tab or in
`[32, 255]` excluding DEL (127).  Characters at or above 128 encode to bytes
at or above 128, which are all valid, so the check is per character. -/
def headerValueOk (s : String) : Bool :=
  s.data.all (fun c => c == '\t' || decide (32 ≤ c.toNat ∧ c.toNat ≠ 127))

/-- `JupyterClient::new` (`remote.rs` lines 78-96): builds the
`Authorization: token <token>` header with `.expect(...)` — a malformed
header value PANICS — then parses the server URL (`?`, a `ConfigError`),
then builds the HTTP client (with these options `ClientBuilder::build`
does not fail, so it is modelled as succeeding). -/
def JupyterClient.new (server_url token : String) : RustOutcome JupyterClient :=
  let auth := "token " ++ token
  if headerValueOk auth then
    match Url.parse server_url with
    | none => .failed .ConfigError
    | some u => .ok ⟨u, token, [("Authorization", auth)]⟩
  else .panicked

/-- The per-request state of `JupyterClient::get_kernel_by_id`
(`remote.rs` lines 118-125) once the server has answered: the HTTP status,
and the body parsed as `KernelInfo` when it is well-formed. -/
structure HttpResponse where
  status : Nat
  kernel_info : Option KernelInfo
deriving Repr, BEq, DecidableEq

/-- reqwest `Response::error_for_status`: an error exactly for client-error
(400-499) and server-error (500-599) statuses. -/
def error_for_status (r : HttpResponse) : Except Error HttpResponse :=
  if 400 ≤ r.status ∧ r.status ≤ 599 then .error (.RemoteError r.status)
  else .ok r

/-- `JupyterClient::get_kernel_by_id` after the GET returned `resp`:
404 short-circuits to `Ok(None)`; otherwise `error_for_status` is applied
and the body is parsed (a malformed body is an error). -/
def get_kernel_by_id (resp : HttpResponse) : Except Error (Option KernelInfo) :=
  if resp.status = 404 then .ok none
  else
    match error_for_status resp with
    | .error e => .error e
    | .ok r =>
      match r.kernel_info with
      | some info => .ok (some info)
      | none => .error .FormatError

/-- An opened WebSocket kernel connection (external `KernelConnection`),
identified by the URL and token it was opened with. -/
structure KernelConnection where
  url : String
  token : String
deriving Repr, BEq, DecidableEq

/-- `RemoteKernel` (`remote.rs` lines 17-23). -/
structure RemoteKernel where
  client : JupyterClient
  kernel_id : String
  conn : KernelConnection
deriving Repr, BEq, DecidableEq

/-- Outcomes of the two network effects inside `RemoteKernel::start`:
what `client.create_kernel(spec_name)` returns, and what
`create_websocket_connection(url, token)` returns for given arguments. -/
structure StartEnv where
  create_kernel : Except Error KernelInfo
  open_channel : String → String → Except Error KernelConnection

/-- `RemoteKernel::start` (`remote.rs` lines 27-47): create the kernel,
derive the transport URL, open the channel, and only then bundle the
session handle; every `?` propagates the first error. -/
def RemoteKernel.start (env : StartEnv) (client : JupyterClient) :
    Except Error RemoteKernel :=
  match env.create_kernel with
  | .error e => .error e
  | .ok kernel_info =>
    match derive_ws_url client.server_url kernel_info.id with
    | none => .error .ConfigError
    | some ws_url =>
      match env.open_channel ws_url client.token with
      | .error e => .error e
      | .ok conn => .ok ⟨client, kernel_info.id, conn⟩

theorem isPrefixOf_append_self (l₁ l₂ : List Char) :
    l₁.isPrefixOf (l₁ ++ l₂) = true :=
  List.isPrefixOf_iff_prefix.mpr (List.prefix_append _ _)

/-- `replacen` with the pattern sitting at the very front replaces exactly
that prefix. -/
theorem replacen1_at_head (pat rep rest : List Char) (hne : pat ≠ []) :
    replacen1 (pat ++ rest) pat rep = rep ++ rest := by
  cases pat with
  | nil => exact absurd rfl hne
  | cons p ps =>
    have h1 : ((p :: ps) ++ rest) = p :: (ps ++ rest) := rfl
    rw [h1]
    simp only [replacen1]
    rw [← h1, if_pos (isPrefixOf_append_self _ _), List.drop_left]

theorem isPrefixOf_false_of_ne (l : List Char) (a b : Char) (l₂ l₃ : List Char)
    (h : a ≠ b) : ((l ++ a :: l₂).isPrefixOf (l ++ b :: l₃)) = false := by
  induction l with
  | nil =>
    simp only [List.nil_append, List.isPrefixOf]
    simp [h]
  | cons c t ih =>
    simp only [List.cons_append, List.isPrefixOf, beq_self_eq_true,
      Bool.true_and]
    exact ih

theorem join_absolute (u : Url) (input : String)
    (h : startsWithStr input "/" = true) :
    u.join input = some { u with path := input } := by
  simp [Url.join, h]

theorem startsWith_slash_channels (kernel_id : String) :
    startsWithStr ("/api/kernels/" ++ kernel_id ++ "/channels") "/" = true := by
  show List.isPrefixOf "/".data
    (("/api/kernels/" ++ kernel_id ++ "/channels").data) = true
  simp only [String.data_append]
  show List.isPrefixOf ['/']
    ((['/','a','p','i','/','k','e','r','n','e','l','s','/'] ++ kernel_id.data)
      ++ "/channels".data) = true
  simp [List.isPrefixOf, List.cons_append]

/-- Transport URL for an `https` base: `wss`, path replaced wholesale. -/
theorem derive_ws_url_https (host basePath kernel_id : String) :
    derive_ws_url ⟨"https", host, basePath⟩ kernel_id =
      some ("wss://" ++ host ++ "/api/kernels/" ++ kernel_id ++ "/channels") := by
  have hsdata : (Url.toString ⟨"https", host,
      "/api/kernels/" ++ kernel_id ++ "/channels"⟩).data
      = "https://".data ++ (host.data ++
        ("/api/kernels/" ++ kernel_id ++ "/channels").data) := by
    show ("https" ++ "://" ++ host ++
      ("/api/kernels/" ++ kernel_id ++ "/channels")).data = _
    simp only [String.data_append, List.append_assoc]
    rfl
  have hpre : startsWithStr (Url.toString ⟨"https", host,
      "/api/kernels/" ++ kernel_id ++ "/channels"⟩) "https://" = true := by
    show List.isPrefixOf "https://".data (Url.toString ⟨"https", host,
      "/api/kernels/" ++ kernel_id ++ "/channels"⟩).data = true
    rw [hsdata]
    exact isPrefixOf_append_self _ _
  simp only [derive_ws_url, join_absolute _ _ (startsWith_slash_channels kernel_id)]
  simp only [hpre, if_true]
  congr 1
  apply string_data_eq
  show replacen1 ((Url.toString ⟨"https", host,
      "/api/kernels/" ++ kernel_id ++ "/channels"⟩).data)
    "https://".data "wss://".data = _
  rw [hsdata, replacen1_at_head _ _ _ (by decide)]
  simp only [String.data_append, List.append_assoc]

/-- Transport URL for an `http` base: `ws`, path replaced wholesale. -/
theorem derive_ws_url_http (host basePath kernel_id : String) :
    derive_ws_url ⟨"http", host, basePath⟩ kernel_id =
      some ("ws://" ++ host ++ "/api/kernels/" ++ kernel_id ++ "/channels") := by
  have hsdata : (Url.toString ⟨"http", host,
      "/api/kernels/" ++ kernel_id ++ "/channels"⟩).data
      = "http://".data ++ (host.data ++
        ("/api/kernels/" ++ kernel_id ++ "/channels").data) := by
    show ("http" ++ "://" ++ host ++
      ("/api/kernels/" ++ kernel_id ++ "/channels")).data = _
    simp only [String.data_append, List.append_assoc]
    rfl
  have hpre : startsWithStr (Url.toString ⟨"http", host,
      "/api/kernels/" ++ kernel_id ++ "/channels"⟩) "https://" = false := by
    show List.isPrefixOf "https://".data (Url.toString ⟨"http", host,
      "/api/kernels/" ++ kernel_id ++ "/channels"⟩).data = false
    rw [hsdata]
    exact isPrefixOf_false_of_ne ['h','t','t','p'] 's' ':' [':','/','/']
      ('/' :: '/' :: (host.data ++
        ("/api/kernels/" ++ kernel_id ++ "/channels").data)) (by decide)
  have hpre2 : startsWithStr (Url.toString ⟨"http", host,
      "/api/kernels/" ++ kernel_id ++ "/channels"⟩) "http://" = true := by
    show List.isPrefixOf "http://".data (Url.toString ⟨"http", host,
      "/api/kernels/" ++ kernel_id ++ "/channels"⟩).data = true
    rw [hsdata]
    exact isPrefixOf_append_self _ _
  simp only [derive_ws_url, join_absolute _ _ (startsWith_slash_channels kernel_id)]
  simp only [hpre, if_false, Bool.false_eq_true]
  congr 1
  apply string_data_eq
  show replacen1 ((Url.toString ⟨"http", host,
      "/api/kernels/" ++ kernel_id ++ "/channels"⟩).data)
    "http://".data "ws://".data = _
  rw [hsdata, replacen1_at_head _ _ _ (by decide)]
  simp only [String.data_append, List.append_assoc]

/-- C4: `RemoteKernel::start` derives the transport URL by joining
`/api/kernels/{id}/channels` onto the base URL and rewriting the scheme
with one first-occurrence prefix replacement: an `https` base yields `wss`,
an `http` base yields `ws`. -/
theorem spec_c4_scheme_rewrite (host kernel_id : String) :
    derive_ws_url ⟨"https", host, "/"⟩ kernel_id =
      some ("wss://" ++ host ++ "/api/kernels/" ++ kernel_id ++ "/channels") ∧
    derive_ws_url ⟨"http", host, "/"⟩ kernel_id =
      some ("ws://" ++ host ++ "/api/kernels/" ++ kernel_id ++ "/channels") :=
  ⟨derive_ws_url_https host "/" kernel_id, derive_ws_url_http host "/" kernel_id⟩

/-- C10: for every base URL path (a non-empty prefix such as `/prefix/`
included), the joined transport URL has path exactly
`/api/kernels/{id}/channels` on the base URL's host — the base path is
discarded because the join input is an absolute path. -/
theorem spec_c10_base_path_discarded (host basePath kernel_id : String) :
    Url.join ⟨"https", host, basePath⟩
        ("/api/kernels/" ++ kernel_id ++ "/channels") =
      some ⟨"https", host, "/api/kernels/" ++ kernel_id ++ "/channels"⟩ ∧
    derive_ws_url ⟨"https", host, basePath⟩ kernel_id =
      some ("wss://" ++ host ++ "/api/kernels/" ++ kernel_id ++ "/channels") :=
  ⟨rfl, derive_ws_url_https host basePath kernel_id⟩

/-- A well-formed kernel-info body used in concrete scenarios. -/
def kernelInfoSample : KernelInfo :=
  ⟨"abc", "python3", "2024-01-01T00:00:00Z", "idle", 0⟩

/-- C3 counterexample: a `304 Not Modified` response (non-2xx, not 404)
with a well-formed body makes `get_kernel_by_id` return the kernel info
(`Ok(Some ..)`), not a `RemoteError`, because reqwest's `error_for_status`
only errors on statuses 400-599.  This falsifies "for every other non-2xx
status it returns a RemoteError". -/
theorem spec_c3_counterexample :
    get_kernel_by_id ⟨304, some kernelInfoSample⟩ = .ok (some kernelInfoSample) ∧
    (304 : Nat) ≠ 404 ∧ ¬ (200 ≤ (304 : Nat) ∧ (304 : Nat) ≤ 299) ∧
    get_kernel_by_id ⟨304, some kernelInfoSample⟩ ≠
      .error (.RemoteError 304) := by
  refine ⟨rfl, by decide, by decide, ?_⟩
  intro hcontra
  exact Except.noConfusion hcontra

/-- C3 (amended): `get_kernel_by_id` returns `Ok(None)` exactly on 404; it
returns a `RemoteError` exactly for the other statuses in 400-599 (reqwest's
client/server error range); for any remaining status a well-formed body
yields the kernel info and a malformed body is an error. -/
theorem spec_c3_not_found_vs_error (resp : HttpResponse) :
    (resp.status = 404 → get_kernel_by_id resp = .ok none) ∧
    (resp.status ≠ 404 → 400 ≤ resp.status → resp.status ≤ 599 →
      get_kernel_by_id resp = .error (.RemoteError resp.status)) ∧
    (resp.status ≠ 404 → ¬ (400 ≤ resp.status ∧ resp.status ≤ 599) →
      ∀ info, resp.kernel_info = some info →
        get_kernel_by_id resp = .ok (some info)) ∧
    (resp.status ≠ 404 → ¬ (400 ≤ resp.status ∧ resp.status ≤ 599) →
      resp.kernel_info = none →
        get_kernel_by_id resp = .error .FormatError) := by
  refine ⟨?_, ?_, ?_, ?_⟩
  · intro h404
    simp [get_kernel_by_id, h404]
  · intro hne h1 h2
    simp [get_kernel_by_id, hne, error_for_status, h1, h2]
  · intro hne hrange info hinfo
    simp [get_kernel_by_id, hne, error_for_status, hrange, hinfo]
  · intro hne hrange hnone
    simp [get_kernel_by_id, hne, error_for_status, hrange, hnone]

theorem spec_c3_witness :
    get_kernel_by_id ⟨404, none⟩ = .ok none ∧
    get_kernel_by_id ⟨500, none⟩ = .error (.RemoteError 500) ∧
    get_kernel_by_id ⟨200, some kernelInfoSample⟩ = .ok (some kernelInfoSample) :=
  ⟨(spec_c3_not_found_vs_error ⟨404, none⟩).1 rfl,
   (spec_c3_not_found_vs_error ⟨500, none⟩).2.1 (by decide) (by decide) (by decide),
   (spec_c3_not_found_vs_error ⟨200, some kernelInfoSample⟩).2.2.1
     (by decide) (by decide) kernelInfoSample rfl⟩

/-- C6 counterexample: a token whose header value is malformed (here a
newline inside the token) makes `JupyterClient::new` PANIC — the
`.expect("server token parse")` on building the `Authorization` header —
rather than return a typed `ConfigError`, even with a perfectly valid URL.
This falsifies "returns a typed outcome and never panics". -/
theorem spec_c6_counterexample :
    JupyterClient.new "http://localhost:8888" "bad\ntoken" =
      RustOutcome.panicked := by decide

/-- C6 (amended): whenever the header value `token <token>` is well-formed,
`JupyterClient::new` returns `ConfigError` exactly when the server URL does
not parse, and otherwise a client carrying that URL and attaching the
`Authorization: token <token>` header to every request; when the header
value is malformed the code panics instead of returning. -/
theorem spec_c6_new_outcome (server_url token : String)
    (hok : headerValueOk ("token " ++ token) = true) :
    (Url.parse server_url = none →
      JupyterClient.new server_url token = .failed .ConfigError) ∧
    (∀ u, Url.parse server_url = some u →
      JupyterClient.new server_url token =
        .ok ⟨u, token, [("Authorization", "token " ++ token)]⟩) := by
  constructor
  · intro hnone
    simp [JupyterClient.new, hok, hnone]
  · intro u hu
    simp [JupyterClient.new, hok, hu]

theorem spec_c6_witness :
    headerValueOk ("token " ++ "abc") = true ∧
    JupyterClient.new "not a url" "abc" = .failed .ConfigError ∧
    JupyterClient.new "http://localhost:8888" "abc" =
      .ok ⟨⟨"http", "localhost:8888", "/"⟩, "abc",
           [("Authorization", "token " ++ "abc")]⟩ :=
  ⟨by decide,
   (spec_c6_new_outcome "not a url" "abc" (by decide)).1 (by decide),
   (spec_c6_new_outcome "http://localhost:8888" "abc" (by decide)).2
     ⟨"http", "localhost:8888", "/"⟩ (by decide)⟩

/-- C7: `RemoteKernel::start` is all-or-nothing: a failure of kernel
creation or of the channel open aborts the whole operation with that first
error and no session handle; a handle comes back only when every step
succeeded, and it bundles the client, the server-assigned kernel id and the
opened channel.  (In this embedding the transport-URL derivation is a total
function — joining the literal absolute channels path cannot fail — so the
two fallible steps are creation and channel open.) -/
theorem spec_c7_start_all_or_nothing (env : StartEnv) (client : JupyterClient) :
    (∀ e, env.create_kernel = .error e →
      RemoteKernel.start env client = .error e) ∧
    (∀ info ws e, env.create_kernel = .ok info →
      derive_ws_url client.server_url info.id = some ws →
      env.open_channel ws client.token = .error e →
      RemoteKernel.start env client = .error e) ∧
    (∀ info ws conn, env.create_kernel = .ok info →
      derive_ws_url client.server_url info.id = some ws →
      env.open_channel ws client.token = .ok conn →
      RemoteKernel.start env client = .ok ⟨client, info.id, conn⟩) ∧
    (∀ r, RemoteKernel.start env client = .ok r →
      ∃ info ws, env.create_kernel = .ok info ∧
        derive_ws_url client.server_url info.id = some ws ∧
        env.open_channel ws client.token = .ok r.conn ∧
        r.client = client ∧ r.kernel_id = info.id) := by
  refine ⟨?_, ?_, ?_, ?_⟩
  · intro e he
    simp [RemoteKernel.start, he]
  · intro info ws e hc hd ho
    simp [RemoteKernel.start, hc, hd, ho]
  · intro info ws conn hc hd ho
    simp [RemoteKernel.start, hc, hd, ho]
  · intro r hr
    unfold RemoteKernel.start at hr
    split at hr
    · exact Except.noConfusion hr
    · next info hc =>
      split at hr
      · exact Except.noConfusion hr
      · next ws hd =>
        split at hr
        · exact Except.noConfusion hr
        · next conn ho =>
          cases hr
          exact ⟨info, ws, hc, hd, ho, rfl, rfl⟩

/-- A concrete environment for the witness: the server assigns kernel id
`"abc"`; opening a channel succeeds and records its arguments. -/
def startEnvOk : StartEnv :=
  { create_kernel := .ok kernelInfoSample,
    open_channel := fun u t => .ok ⟨u, t⟩ }

def startEnvCreateFails : StartEnv :=
  { create_kernel := .error (.RemoteError 500),
    open_channel := fun u t => .ok ⟨u, t⟩ }

def clientSample : JupyterClient :=
  ⟨⟨"https", "host", "/"⟩, "tok", [("Authorization", "token tok")]⟩

theorem spec_c7_witness :
    RemoteKernel.start startEnvOk clientSample =
      .ok ⟨clientSample, "abc",
           ⟨"wss://" ++ "host" ++ "/api/kernels/" ++ "abc" ++ "/channels", "tok"⟩⟩ ∧
    RemoteKernel.start startEnvCreateFails clientSample =
      .error (.RemoteError 500) :=
  ⟨(spec_c7_start_all_or_nothing startEnvOk clientSample).2.2.1
      kernelInfoSample
      ("wss://" ++ "host" ++ "/api/kernels/" ++ "abc" ++ "/channels")
      ⟨"wss://" ++ "host" ++ "/api/kernels/" ++ "abc" ++ "/channels", "tok"⟩
      rfl (derive_ws_url_https "host" "/" "abc") rfl,
   (spec_c7_start_all_or_nothing startEnvCreateFails clientSample).1
      (.RemoteError 500) rfl⟩

theorem spec_c2_witness :
    (MultilineString.Single "a\n\nb\n").normalize = .Multi ["a\n", "\n", "b\n"] :=
  spec_c2_normalize_resplits_after_newlines.2.2.2.2

theorem spec_c9_witness :
    ∃ l : List String,
      (MultilineString.Single "a\nb").normalize = .Multi l ∧
      mlsToString (MultilineString.Single "a\nb").normalize =
        mlsToString (MultilineString.Single "a\nb") ∧
      (∀ frag ∈ l, frag ≠ "" ∧ '\n' ∉ frag.data.dropLast) :=
  spec_c9_normalize_shape (MultilineString.Single "a\nb")
